import Mathlib

/-
  Shallow embedding of badoux/gorb (balancer.go, gorp_api.go).

  The repository ships two revisions of balancer.go: revision 1 names the
  read targets `slaves`, revision 2 names them `replicas` and differs in
  MasterCanRead, Ping, Close and in skipping empty DSN segments.  Both
  revisions are embedded here, with a `1` / `2` suffix marking the revision.

  Connection handles (`*gorp.DbMap` values produced by sql.Open) are opaque
  pointers.  `database/sql.Open` does not dial the database; for a registered
  driver it returns a fresh, distinct handle (driver-side DSN validation is
  outside the router).  A handle is therefore modelled by the position of the
  sql.Open call inside NewBalancer together with the DSN passed to it, and
  the Go nil pointer is `Option.none`.

  Go `uint64` arithmetic is Nat arithmetic modulo 2^64 (`U64`), written out
  explicitly where the counter is incremented.
-/

namespace Gorb

/-- A connection handle (`*gorp.DbMap` as returned by one sql.Open call):
identified by the index of the sql.Open call and the DSN given to it. -/
structure DbMap where
  idx : Nat
  dsn : String
deriving DecidableEq, Repr

/-- A Go pointer to a connection handle; `none` is the nil pointer. -/
abbrev Ptr := Option DbMap

/-- Embedding of Go `strings.Split(s, sep)` for a one-character separator:
splits at every occurrence of `sep`, keeping empty segments, and returns
`[[]]` on the empty string (Go: `strings.Split("", ";") == []string{""}`). -/
def goSplit (sep : Char) : List Char → List (List Char)
  | [] => [[]]
  | c :: rest =>
    match goSplit sep rest with
    | [] => [[]]
    | seg :: segs => if c = sep then [] :: seg :: segs else (c :: seg) :: segs

/-- Modulus of Go uint64 arithmetic. -/
def U64 : Nat := 2 ^ 64

/-! ## Revision 1 (`slaves`) -/

/-- Balancer, revision 1: embedded master handle `DbMap`, the `slaves` read
targets, the shared round-robin counter (a uint64, here a Nat kept below
`U64`) and the `masterCanRead` flag.  Zero values follow Go. -/
structure Balancer1 where
  DbMap : Ptr := none
  slaves : List Ptr := []
  count : Nat := 0
  masterCanRead : Bool := false
deriving DecidableEq, Repr

/-- NewBalancer, revision 1: split the sources on ";", open a handle for
every segment (the first is the master, the rest are slaves; empty segments
are NOT skipped in this revision), and if no slave was produced insert the
master into `slaves` and set `masterCanRead`. -/
def NewBalancer1 (sources : String) : Except String Balancer1 :=
  let conns := (goSplit ';' sources.data).map String.mk
  if conns.length = 0 then Except.error "empty servers list" else
  let b : Balancer1 := conns.enum.foldl (fun b ic =>
    let mapper : Ptr := some { idx := ic.1, dsn := ic.2 }
    if ic.1 = 0 then { b with DbMap := mapper }
    else { b with slaves := b.slaves ++ [mapper] }) {}
  if b.slaves.length = 0 then
    Except.ok { b with slaves := [b.DbMap], masterCanRead := true }
  else Except.ok b

/-- MasterCanRead, revision 1.  The demote branch is
`b.slaves = b.slaves[:len(b.slaves)-2]`, which panics (result `none`) when
`len(b.slaves) < 2` because the slice bound `len-2` is negative; the second
branch appends the master; finally the flag is overwritten with `read`. -/
def MasterCanRead1 (b : Balancer1) (read : Bool) : Option Balancer1 :=
  let step1 : Option Balancer1 :=
    if b.masterCanRead && !read then
      if b.slaves.length < 2 then none
      else some { b with slaves := b.slaves.take (b.slaves.length - 2) }
    else some b
  match step1 with
  | none => none
  | some b1 =>
    let b2 :=
      if !b1.masterCanRead && read then { b1 with slaves := b1.slaves ++ [b1.DbMap] }
      else b1
    some { b2 with masterCanRead := read }

/-- GetAllDbs, revision 1: the master followed by every slave, in order. -/
def GetAllDbs1 (b : Balancer1) : List Ptr :=
  b.DbMap :: b.slaves

/-- Aggregation used by Ping/Close in revision 1: perform the per-handle
call (outcome given by `f`, `none` meaning success) and return immediately
on the first failure.  Result: the returned error and the list of handles
actually attempted, in order. -/
def aggFirstError (f : Ptr → Option String) : List Ptr → Option String × List Ptr
  | [] => (none, [])
  | d :: rest =>
    match f d with
    | some e => (some e, [d])
    | none =>
      let r := aggFirstError f rest
      (r.1, d :: r.2)

/-- Ping, revision 1: ping every db of GetAllDbs but return on the first
failure.  `f` gives each handle's ping outcome. -/
def Ping1 (b : Balancer1) (f : Ptr → Option String) : Option String × List Ptr :=
  aggFirstError f (GetAllDbs1 b)

/-- Close, revision 1: close every db of GetAllDbs but return on the first
failure.  `f` gives each handle's close outcome. -/
def Close1 (b : Balancer1) (f : Ptr → Option String) : Option String × List Ptr :=
  aggFirstError f (GetAllDbs1 b)

/-- The slave index selection, revision 1: if there is exactly one slave
return 0 without touching the counter, otherwise atomically increment the
uint64 counter and take it modulo the number of slaves.  With zero slaves
the modulo is a division by zero, a Go runtime panic (`none`). -/
def slave1 (b : Balancer1) : Option (Nat × Balancer1) :=
  if b.slaves.length = 1 then some (0, b)
  else if b.slaves.length = 0 then none
  else
    let c := (b.count + 1) % U64
    some (c % b.slaves.length, { b with count := c })

/-- Slave, revision 1: index the slave list with the selected index (an
out-of-range index would be a panic, `none`). -/
def Slave1 (b : Balancer1) : Option (Ptr × Balancer1) :=
  match slave1 b with
  | none => none
  | some (i, b2) =>
    match b2.slaves.get? i with
    | none => none
    | some p => some (p, b2)

/-! ## Revision 2 (`replicas`) -/

/-- Balancer, revision 2: same state as revision 1 with the read targets
renamed `replicas`. -/
structure Balancer2 where
  DbMap : Ptr := none
  replicas : List Ptr := []
  count : Nat := 0
  masterCanRead : Bool := false
deriving DecidableEq, Repr

/-- NewBalancer, revision 2: like revision 1 but a segment of length 0 is
skipped (`if len(c) == 0 { continue }`) before sql.Open is called. -/
def NewBalancer2 (sources : String) : Except String Balancer2 :=
  let conns := (goSplit ';' sources.data).map String.mk
  if conns.length = 0 then Except.error "empty servers list" else
  let b : Balancer2 := conns.enum.foldl (fun b ic =>
    if ic.2.length = 0 then b
    else
      let mapper : Ptr := some { idx := ic.1, dsn := ic.2 }
      if ic.1 = 0 then { b with DbMap := mapper }
      else { b with replicas := b.replicas ++ [mapper] }) {}
  if b.replicas.length = 0 then
    Except.ok { b with replicas := [b.DbMap], masterCanRead := true }
  else Except.ok b

/-- MasterCanRead, revision 2: enabling appends the master and sets the
flag; disabling rebuilds `replicas` without the master pointer, but only
when the flag is set and more than one replica is present (otherwise the
call leaves the state unchanged, flag included). -/
def MasterCanRead2 (b : Balancer2) (read : Bool) : Balancer2 :=
  let b1 :=
    if read && !b.masterCanRead then
      { b with replicas := b.replicas ++ [b.DbMap], masterCanRead := read }
    else b
  if !read && b1.masterCanRead && b1.replicas.length > 1 then
    { b1 with replicas := b1.replicas.filter (fun db => db != b1.DbMap),
              masterCanRead := read }
  else b1

/-- GetAllDbs, revision 2: the master followed by every replica, in order. -/
def GetAllDbs2 (b : Balancer2) : List Ptr :=
  b.DbMap :: b.replicas

/-- Aggregation used by Ping/Close in revision 2: every handle is
attempted; the `err` variable keeps the last non-nil outcome.  Result: the
final error and the list of handles attempted, in order. -/
def aggLastError (f : Ptr → Option String) : List Ptr → Option String → Option String × List Ptr
  | [], err => (err, [])
  | d :: rest, err =>
    let err2 := match f d with | some e => some e | none => err
    let r := aggLastError f rest err2
    (r.1, d :: r.2)

/-- Ping, revision 2: ping every db of GetAllDbs, remembering the last
failure.  `f` gives each handle's ping outcome. -/
def Ping2 (b : Balancer2) (f : Ptr → Option String) : Option String × List Ptr :=
  aggLastError f (GetAllDbs2 b) none

/-- Close, revision 2: close every db of GetAllDbs, remembering the last
failure.  `f` gives each handle's close outcome. -/
def Close2 (b : Balancer2) (f : Ptr → Option String) : Option String × List Ptr :=
  aggLastError f (GetAllDbs2 b) none

/-- SetMaxIdleConns (revision 2): the loop applies the setting to each db of
GetAllDbs in order; the numeric argument and the pool are external, so the
router-visible behaviour is the trace of handles the setting is applied to. -/
def SetMaxIdleConns2 (b : Balancer2) : List Ptr :=
  (GetAllDbs2 b).foldl (fun t db => t ++ [db]) []

/-- SetMaxOpenConns (revision 2): same fan-out trace as SetMaxIdleConns. -/
def SetMaxOpenConns2 (b : Balancer2) : List Ptr :=
  (GetAllDbs2 b).foldl (fun t db => t ++ [db]) []

/-- SetConnMaxLifetime (revision 2): same fan-out trace. -/
def SetConnMaxLifetime2 (b : Balancer2) : List Ptr :=
  (GetAllDbs2 b).foldl (fun t db => t ++ [db]) []

/-- The replica index selection, revision 2 (identical to `slave1`): one
replica short-circuits to 0; otherwise increment the uint64 counter and
reduce it modulo the replica count (modulo 0 is a Go panic, `none`).  The
`int(...)` conversion is lossless since the index is below the slice
length. -/
def replica2 (b : Balancer2) : Option (Nat × Balancer2) :=
  if b.replicas.length = 1 then some (0, b)
  else if b.replicas.length = 0 then none
  else
    let c := (b.count + 1) % U64
    some (c % b.replicas.length, { b with count := c })

/-- Replica, revision 2: index the replica list with the selected index. -/
def Replica2 (b : Balancer2) : Option (Ptr × Balancer2) :=
  match replica2 b with
  | none => none
  | some (i, b2) =>
    match b2.replicas.get? i with
    | none => none
    | some p => some (p, b2)

/-- Iterate `Replica2` n times from a single thread, collecting each call's
selected index and returned handle in order (`none` if any call panics). -/
def replicaRun : Balancer2 → Nat → Option (List (Nat × Ptr) × Balancer2)
  | b, 0 => some ([], b)
  | b, n + 1 =>
    match replica2 b with
    | none => none
    | some (i, b2) =>
      match b2.replicas.get? i with
      | none => none
      | some p =>
        match replicaRun b2 n with
        | none => none
        | some (L, b3) => some ((i, p) :: L, b3)

/-! ## gorp_api.go -/

/-- The loop body of Prepare: prepare the statement against each handle in
turn (`f` gives each handle's outcome, a statement id or an error),
returning `(nil, err)` at the first failure.  The second component records
the handles preparation was attempted on, in order. -/
def prepareLoop (f : Ptr → Except String Nat) :
    List Ptr → List Ptr → List Nat → Except String (List Nat) × List Ptr
  | [], attempted, stmts => (Except.ok stmts, attempted)
  | d :: rest, attempted, stmts =>
    match f d with
    | Except.error e => (Except.error e, attempted ++ [d])
    | Except.ok s => prepareLoop f rest (attempted ++ [d]) (stmts ++ [s])

/-- Prepare (gorp_api.go): prepare the query against every db of GetAllDbs,
short-circuiting on the first error; on success all statements are returned
(wrapped in the stmt value). -/
def Prepare (b : Balancer1) (f : Ptr → Except String Nat) :
    Except String (List Nat) × List Ptr :=
  prepareLoop f (GetAllDbs1 b) [] []

/-- Whether an Except value is a success. -/
def isOkE (r : Except String (List Nat)) : Bool :=
  match r with
  | Except.ok _ => true
  | Except.error _ => false

/-- Whether a per-handle preparation outcome is a success. -/
def isOkS (r : Except String Nat) : Bool :=
  match r with
  | Except.ok _ => true
  | Except.error _ => false

/-! ## Sample handles and topologies for the concrete witness statements -/

/-- Handle opened first (the master in the samples). -/
def mA : Ptr := some ⟨0, "A"⟩

/-- A replica handle. -/
def rB : Ptr := some ⟨1, "B"⟩

/-- A replica handle. -/
def rC : Ptr := some ⟨2, "C"⟩

/-- A replica handle. -/
def rD : Ptr := some ⟨3, "D"⟩

/-- A fresh two-replica topology (revision 2). -/
def twoReplicaB2 : Balancer2 := { DbMap := mA, replicas := [rB, rC] }

/-- A fresh three-replica topology (revision 2). -/
def threeReplicaB2 : Balancer2 := { DbMap := mA, replicas := [rB, rC, rD] }

/-- A fresh two-slave topology (revision 1). -/
def twoSlaveB1 : Balancer1 := { DbMap := mA, slaves := [rB, rC] }

/-- A per-handle preparation outcome that fails on rB only. -/
def prepFailB : Ptr → Except String Nat :=
  fun p => if p = rB then Except.error "boom" else Except.ok 5

/-! ## Helper lemmas -/

/-- The accumulating loop of the fan-out setters appends each visited handle. -/
theorem foldl_snoc_eq (l acc : List Ptr) :
    l.foldl (fun t db => t ++ [db]) acc = acc ++ l := by
  induction l generalizing acc with
  | nil => simp
  | cons d rest ih => simp [List.foldl_cons, ih]

/-- The revision-2 aggregation attempts exactly the handles it is given. -/
theorem aggLastError_attempted (f : Ptr → Option String) (dbs : List Ptr) :
    ∀ err, (aggLastError f dbs err).2 = dbs := by
  induction dbs with
  | nil => intro err; rfl
  | cons d rest ih => intro err; simp [aggLastError, ih]

/-- A list element fetched below the length is the getD value. -/
theorem get?_some_getD {α : Type} (d : α) :
    ∀ (l : List α) (i : Nat), i < l.length → l.get? i = some (l.getD i d) := by
  intro l
  induction l with
  | nil => intro i h; simp at h
  | cons a t ih =>
    intro i h
    cases i with
    | zero => rfl
    | succ j => exact ih j (by simpa using h)

/-- The prepare loop stops at the first failing handle: everything before it
succeeded, so the loop returns that error having attempted exactly the
prefix up to and including the failing handle. -/
theorem prepareLoop_first_error (f : Ptr → Except String Nat) (d : Ptr) (e : String)
    (post : List Ptr) (hd : f d = Except.error e) :
    ∀ (pre attempted : List Ptr) (stmts : List Nat),
      (∀ x ∈ pre, isOkS (f x) = true) →
      prepareLoop f (pre ++ d :: post) attempted stmts
        = (Except.error e, attempted ++ pre ++ [d]) := by
  intro pre
  induction pre with
  | nil =>
    intro attempted stmts _
    simp [prepareLoop, hd]
  | cons x rest ih =>
    intro attempted stmts hpre
    have hx : isOkS (f x) = true := hpre x (by simp)
    match hfx : f x with
    | Except.error ex => rw [hfx] at hx; simp [isOkS] at hx
    | Except.ok s =>
      have := ih (attempted ++ [x]) (stmts ++ [s]) (fun y hy => hpre y (by simp [hy]))
      simp only [List.cons_append, prepareLoop, hfx, List.append_eq]
      rw [this]
      simp

/-- The prepare loop succeeds exactly when every handle's preparation does. -/
theorem prepareLoop_ok_iff (f : Ptr → Except String Nat) :
    ∀ (dbs attempted : List Ptr) (stmts : List Nat),
      (isOkE (prepareLoop f dbs attempted stmts).1 = true
        ↔ ∀ x ∈ dbs, isOkS (f x) = true) := by
  intro dbs
  induction dbs with
  | nil => intro attempted stmts; simp [prepareLoop, isOkE]
  | cons d rest ih =>
    intro attempted stmts
    match hfd : f d with
    | Except.error e =>
      simp only [prepareLoop, hfd]
      constructor
      · intro h; simp [isOkE] at h
      · intro h
        have := h d (by simp)
        rw [hfd] at this
        simp [isOkS] at this
    | Except.ok s =>
      simp only [prepareLoop, hfd]
      rw [ih (attempted ++ [d]) (stmts ++ [s])]
      constructor
      · intro h x hx
        rcases List.mem_cons.mp hx with rfl | hx
        · rw [hfd]; rfl
        · exact h x hx
      · intro h x hx; exact h x (by simp [hx])

/-- Replica unfolds to the selected element once the index selection and the
list lookup are known. -/
theorem Replica2_eq_of (b : Balancer2) (i : Nat) (c : Balancer2) (p : Ptr)
    (hr : replica2 b = some (i, c)) (hg : c.replicas.get? i = some p) :
    Replica2 b = some (p, c) := by
  simp only [Replica2, hr, hg]

/-- Slave unfolds to the selected element once the index selection and the
list lookup are known. -/
theorem Slave1_eq_of (a : Balancer1) (i : Nat) (c : Balancer1) (p : Ptr)
    (hr : slave1 a = some (i, c)) (hg : c.slaves.get? i = some p) :
    Slave1 a = some (p, c) := by
  simp only [Slave1, hr, hg]

/-! ## Claim theorems -/

/-- C1: the claim says MasterCanRead(false) with the primary as the only
read target leaves the state unchanged, never empties the read-target list,
never panics and never drops a genuine replica.  Revision 1 violates all of
it: on the topology built from sources "A" (slaves = [master]) the demote
branch evaluates the slice bound len-2 = -1 and panics; on slaves =
[replica B, master] it truncates two elements, leaving the read-target list
empty and dropping the genuine replica B.  (Revision 2 guards the demotion
with len(replicas) > 1 and is a no-op there.) -/
theorem C1_rev1_demote_panics_and_empties :
    NewBalancer1 "A" = Except.ok { DbMap := some ⟨0, "A"⟩, slaves := [some ⟨0, "A"⟩],
                                   count := 0, masterCanRead := true }
    ∧ MasterCanRead1 { DbMap := some ⟨0, "A"⟩, slaves := [some ⟨0, "A"⟩],
                       count := 0, masterCanRead := true } false = none
    ∧ MasterCanRead1 { DbMap := some ⟨0, "A"⟩, slaves := [some ⟨1, "B"⟩, some ⟨0, "A"⟩],
                       count := 0, masterCanRead := true } false
      = some { DbMap := some ⟨0, "A"⟩, slaves := [], count := 0, masterCanRead := false }
    ∧ MasterCanRead2 { DbMap := some ⟨0, "A"⟩, replicas := [some ⟨0, "A"⟩],
                       count := 0, masterCanRead := true } false
      = { DbMap := some ⟨0, "A"⟩, replicas := [some ⟨0, "A"⟩],
          count := 0, masterCanRead := true } := by
  refine ⟨by rfl, by rfl, by rfl, by decide⟩

/-- C2, counterexample: the claim says each fan-out operation reaches the
primary exactly once even when the primary is also a read target.  On the
topology built from sources "A" (primary readable, replicas = [primary])
GetAllDbs lists the primary twice and the SetMaxIdleConns loop applies the
setting to it twice, as does the Ping fan-out. -/
theorem C2_counterexample_primary_double_counted :
    NewBalancer2 "A" = Except.ok { DbMap := some ⟨0, "A"⟩, replicas := [some ⟨0, "A"⟩],
                                   count := 0, masterCanRead := true }
    ∧ ¬ ((SetMaxIdleConns2 { DbMap := some ⟨0, "A"⟩, replicas := [some ⟨0, "A"⟩],
                             count := 0, masterCanRead := true }).count (some ⟨0, "A"⟩) = 1)
    ∧ (SetMaxIdleConns2 { DbMap := some ⟨0, "A"⟩, replicas := [some ⟨0, "A"⟩],
                          count := 0, masterCanRead := true }).count (some ⟨0, "A"⟩) = 2
    ∧ (Ping2 { DbMap := some ⟨0, "A"⟩, replicas := [some ⟨0, "A"⟩],
               count := 0, masterCanRead := true } (fun _ => none)).2.count (some ⟨0, "A"⟩) = 2 := by
  refine ⟨by rfl, by decide, by decide, by decide⟩

/-- C3: the claim says Ping and Close attempt every handle regardless of
earlier failures and return the last-observed error.  Revision 1 violates
it: with handles [A, B, C] where only B fails, Ping and Close return after
attempting [A, B] only, never reaching C.  Revision 2 attempts all three
and surfaces the failure, as the claim says. -/
theorem C3_rev1_ping_close_short_circuit :
    Ping1 { DbMap := some ⟨0, "A"⟩, slaves := [some ⟨1, "B"⟩, some ⟨2, "C"⟩] }
        (fun p => if p = some ⟨1, "B"⟩ then some "boom" else none)
      = (some "boom", [some ⟨0, "A"⟩, some ⟨1, "B"⟩])
    ∧ Close1 { DbMap := some ⟨0, "A"⟩, slaves := [some ⟨1, "B"⟩, some ⟨2, "C"⟩] }
        (fun p => if p = some ⟨1, "B"⟩ then some "boom" else none)
      = (some "boom", [some ⟨0, "A"⟩, some ⟨1, "B"⟩])
    ∧ (some ⟨2, "C"⟩ : Ptr) ∉ (Close1 { DbMap := some ⟨0, "A"⟩, slaves := [some ⟨1, "B"⟩, some ⟨2, "C"⟩] }
        (fun p => if p = some ⟨1, "B"⟩ then some "boom" else none)).2
    ∧ Ping2 { DbMap := some ⟨0, "A"⟩, replicas := [some ⟨1, "B"⟩, some ⟨2, "C"⟩] }
        (fun p => if p = some ⟨1, "B"⟩ then some "boom" else none)
      = (some "boom", [some ⟨0, "A"⟩, some ⟨1, "B"⟩, some ⟨2, "C"⟩])
    ∧ Close2 { DbMap := some ⟨0, "A"⟩, replicas := [some ⟨1, "B"⟩, some ⟨2, "C"⟩] }
        (fun p => if p = some ⟨1, "B"⟩ then some "boom" else none)
      = (some "boom", [some ⟨0, "A"⟩, some ⟨1, "B"⟩, some ⟨2, "C"⟩]) := by
  refine ⟨by decide, by decide, by decide, by decide, by decide⟩

/-- C4: the claim says constructing from the empty data-source string fails
with a construction error.  It does not: Go strings.Split of the empty
string yields one empty segment, so the emptiness check (the code's own
"empty servers list" error) is dead.  Revision 2 skips the empty segment
and returns a Balancer whose master is the nil pointer and whose replicas
list is [nil]; revision 1 opens a handle for the empty DSN and returns it
as master and sole slave. -/
theorem C4_empty_sources_construction_succeeds :
    NewBalancer2 "" = Except.ok { DbMap := none, replicas := [none],
                                  count := 0, masterCanRead := true }
    ∧ NewBalancer1 "" = Except.ok { DbMap := some ⟨0, ""⟩, slaves := [some ⟨0, ""⟩],
                                    count := 0, masterCanRead := true }
    ∧ goSplit ';' "".data = [[]] := by
  refine ⟨by rfl, by rfl, by decide⟩

/-- C6: the claim says every empty segment of the source string is skipped
and never becomes a connection handle, so "A;;B" yields primary = A and
read targets = [B].  Revision 2 behaves exactly so; revision 1 has no skip
and opens a handle for the empty middle segment, placing it in the
read-target list. -/
theorem C6_rev1_keeps_empty_segment :
    NewBalancer2 "A;;B" = Except.ok { DbMap := some ⟨0, "A"⟩, replicas := [some ⟨2, "B"⟩],
                                      count := 0, masterCanRead := false }
    ∧ NewBalancer1 "A;;B" = Except.ok { DbMap := some ⟨0, "A"⟩,
                                        slaves := [some ⟨1, ""⟩, some ⟨2, "B"⟩],
                                        count := 0, masterCanRead := false } := by
  refine ⟨by rfl, by rfl⟩

/-- C2, amended: each administrative fan-out operation is applied to the
master first and then to every read target in list order, so the master
receives the operation once as master plus once for every occurrence of its
pointer in the read-target list (twice, not once, when it is readable). -/
theorem C2_fanout_master_then_each_read_target (b : Balancer2) (f : Ptr → Option String) :
    GetAllDbs2 b = b.DbMap :: b.replicas
    ∧ SetMaxIdleConns2 b = b.DbMap :: b.replicas
    ∧ SetMaxOpenConns2 b = b.DbMap :: b.replicas
    ∧ SetConnMaxLifetime2 b = b.DbMap :: b.replicas
    ∧ (Ping2 b f).2 = b.DbMap :: b.replicas
    ∧ (SetMaxIdleConns2 b).count b.DbMap = b.replicas.count b.DbMap + 1 := by
  have hset : SetMaxIdleConns2 b = b.DbMap :: b.replicas := by
    simp [SetMaxIdleConns2, foldl_snoc_eq, GetAllDbs2]
  refine ⟨rfl, hset, ?_, ?_, ?_, ?_⟩
  · simp [SetMaxOpenConns2, foldl_snoc_eq, GetAllDbs2]
  · simp [SetConnMaxLifetime2, foldl_snoc_eq, GetAllDbs2]
  · simp [Ping2, aggLastError_attempted, GetAllDbs2]
  · rw [hset, List.count_cons_self]

/-- C7: with a non-empty read-target list and no concurrent
reconfiguration, one selection call computes an index strictly below the
list length, does not panic, and returns an element of the list — in both
revisions. -/
theorem C7_selection_in_range (b : Balancer2) (a : Balancer1)
    (hb : 0 < b.replicas.length) (ha : 0 < a.slaves.length) :
    (∃ i c, replica2 b = some (i, c) ∧ i < b.replicas.length ∧ c.replicas = b.replicas
       ∧ ∃ p, Replica2 b = some (p, c) ∧ p ∈ b.replicas)
    ∧ (∃ i c, slave1 a = some (i, c) ∧ i < a.slaves.length ∧ c.slaves = a.slaves
       ∧ ∃ p, Slave1 a = some (p, c) ∧ p ∈ a.slaves) := by
  constructor
  · by_cases h1 : b.replicas.length = 1
    · have hr : replica2 b = some (0, b) := by simp [replica2, h1]
      have h0 : 0 < b.replicas.length := hb
      have hg : b.replicas.get? 0 = some (b.replicas.get ⟨0, h0⟩) := List.get?_eq_get h0
      exact ⟨0, b, hr, h0, rfl, b.replicas.get ⟨0, h0⟩,
        Replica2_eq_of b 0 b _ hr hg, List.get_mem _ _ _⟩
    · have h0 : ¬ b.replicas.length = 0 := by omega
      have hr : replica2 b
          = some ((b.count + 1) % U64 % b.replicas.length,
                  { b with count := (b.count + 1) % U64 }) := by
        simp [replica2, h1, h0]
      have hi : (b.count + 1) % U64 % b.replicas.length < b.replicas.length :=
        Nat.mod_lt _ hb
      have hg : b.replicas.get? ((b.count + 1) % U64 % b.replicas.length)
          = some (b.replicas.get ⟨(b.count + 1) % U64 % b.replicas.length, hi⟩) :=
        List.get?_eq_get hi
      exact ⟨(b.count + 1) % U64 % b.replicas.length, { b with count := (b.count + 1) % U64 },
        hr, hi, rfl, b.replicas.get ⟨(b.count + 1) % U64 % b.replicas.length, hi⟩,
        Replica2_eq_of b _ _ _ hr hg, List.get_mem _ _ _⟩
  · by_cases h1 : a.slaves.length = 1
    · have hr : slave1 a = some (0, a) := by simp [slave1, h1]
      have h0 : 0 < a.slaves.length := ha
      have hg : a.slaves.get? 0 = some (a.slaves.get ⟨0, h0⟩) := List.get?_eq_get h0
      exact ⟨0, a, hr, h0, rfl, a.slaves.get ⟨0, h0⟩,
        Slave1_eq_of a 0 a _ hr hg, List.get_mem _ _ _⟩
    · have h0 : ¬ a.slaves.length = 0 := by omega
      have hr : slave1 a
          = some ((a.count + 1) % U64 % a.slaves.length,
                  { a with count := (a.count + 1) % U64 }) := by
        simp [slave1, h1, h0]
      have hi : (a.count + 1) % U64 % a.slaves.length < a.slaves.length :=
        Nat.mod_lt _ ha
      have hg : a.slaves.get? ((a.count + 1) % U64 % a.slaves.length)
          = some (a.slaves.get ⟨(a.count + 1) % U64 % a.slaves.length, hi⟩) :=
        List.get?_eq_get hi
      exact ⟨(a.count + 1) % U64 % a.slaves.length, { a with count := (a.count + 1) % U64 },
        hr, hi, rfl, a.slaves.get ⟨(a.count + 1) % U64 % a.slaves.length, hi⟩,
        Slave1_eq_of a _ _ _ hr hg, List.get_mem _ _ _⟩

/-- C7, witness: the in-range selection property applied to the fresh
two-replica (revision 2) and two-slave (revision 1) topologies. -/
theorem C7_selection_in_range_witness :
    (∃ i c, replica2 twoReplicaB2 = some (i, c) ∧ i < twoReplicaB2.replicas.length
       ∧ c.replicas = twoReplicaB2.replicas
       ∧ ∃ p, Replica2 twoReplicaB2 = some (p, c) ∧ p ∈ twoReplicaB2.replicas)
    ∧ (∃ i c, slave1 twoSlaveB1 = some (i, c) ∧ i < twoSlaveB1.slaves.length
       ∧ c.slaves = twoSlaveB1.slaves
       ∧ ∃ p, Slave1 twoSlaveB1 = some (p, c) ∧ p ∈ twoSlaveB1.slaves) :=
  C7_selection_in_range twoReplicaB2 twoSlaveB1 (by decide) (by decide)

/-- C8: on a topology whose master is not currently a read target (flag
down, pointer absent), MasterCanRead(true) appends the master exactly once
and sets the flag; a second MasterCanRead(true) changes nothing — in both
revisions. -/
theorem C8_enable_appends_once_and_idempotent (b2 : Balancer2) (b1 : Balancer1)
    (h2f : b2.masterCanRead = false) (h2m : b2.DbMap ∉ b2.replicas)
    (h1f : b1.masterCanRead = false) (h1m : b1.DbMap ∉ b1.slaves) :
    MasterCanRead2 b2 true
      = { b2 with replicas := b2.replicas ++ [b2.DbMap], masterCanRead := true }
    ∧ (MasterCanRead2 b2 true).replicas.count b2.DbMap = 1
    ∧ MasterCanRead2 (MasterCanRead2 b2 true) true = MasterCanRead2 b2 true
    ∧ MasterCanRead1 b1 true
      = some { b1 with slaves := b1.slaves ++ [b1.DbMap], masterCanRead := true }
    ∧ (b1.slaves ++ [b1.DbMap]).count b1.DbMap = 1
    ∧ MasterCanRead1 { b1 with slaves := b1.slaves ++ [b1.DbMap], masterCanRead := true } true
      = some { b1 with slaves := b1.slaves ++ [b1.DbMap], masterCanRead := true } := by
  have e2 : MasterCanRead2 b2 true
      = { b2 with replicas := b2.replicas ++ [b2.DbMap], masterCanRead := true } := by
    simp [MasterCanRead2, h2f]
  refine ⟨e2, ?_, ?_, ?_, ?_, ?_⟩
  · rw [e2]
    show (b2.replicas ++ [b2.DbMap]).count b2.DbMap = 1
    rw [List.count_append, List.count_eq_zero_of_not_mem h2m, List.count_cons_self]
    rfl
  · rw [e2]
    simp [MasterCanRead2]
  · simp [MasterCanRead1, h1f]
  · rw [List.count_append, List.count_eq_zero_of_not_mem h1m, List.count_cons_self]
    rfl
  · simp [MasterCanRead1]

/-- C8, witness: promoting the master on the fresh two-replica and
two-slave topologies. -/
theorem C8_enable_appends_once_and_idempotent_witness :
    MasterCanRead2 twoReplicaB2 true
      = { twoReplicaB2 with replicas := twoReplicaB2.replicas ++ [twoReplicaB2.DbMap],
                            masterCanRead := true }
    ∧ (MasterCanRead2 twoReplicaB2 true).replicas.count twoReplicaB2.DbMap = 1
    ∧ MasterCanRead2 (MasterCanRead2 twoReplicaB2 true) true = MasterCanRead2 twoReplicaB2 true
    ∧ MasterCanRead1 twoSlaveB1 true
      = some { twoSlaveB1 with slaves := twoSlaveB1.slaves ++ [twoSlaveB1.DbMap],
                               masterCanRead := true }
    ∧ (twoSlaveB1.slaves ++ [twoSlaveB1.DbMap]).count twoSlaveB1.DbMap = 1
    ∧ MasterCanRead1 { twoSlaveB1 with slaves := twoSlaveB1.slaves ++ [twoSlaveB1.DbMap],
                                       masterCanRead := true } true
      = some { twoSlaveB1 with slaves := twoSlaveB1.slaves ++ [twoSlaveB1.DbMap],
                               masterCanRead := true } :=
  C8_enable_appends_once_and_idempotent twoReplicaB2 twoSlaveB1
    (by decide) (by decide) (by decide) (by decide)

/-- C9: on a fresh topology (counter zero) with more than one read target,
the first selection picks index 1, the second element in insertion order,
because the counter is incremented before the modulo is taken. -/
theorem C9_first_selection_hits_index_one (b : Balancer2)
    (h0 : b.count = 0) (hk : 1 < b.replicas.length) :
    replica2 b = some (1, { b with count := 1 })
    ∧ ∃ p, b.replicas.get? 1 = some p ∧ Replica2 b = some (p, { b with count := 1 }) := by
  have h1 : ¬ b.replicas.length = 1 := by omega
  have hz : ¬ b.replicas.length = 0 := by omega
  have hc : (b.count + 1) % U64 = 1 := by
    rw [h0]
    exact Nat.mod_eq_of_lt (by norm_num [U64])
  have hm : 1 % b.replicas.length = 1 := Nat.mod_eq_of_lt hk
  have hr : replica2 b = some (1, { b with count := 1 }) := by
    simp [replica2, h1, hz, hc, hm]
  have hg : b.replicas.get? 1 = some (b.replicas.get ⟨1, hk⟩) := List.get?_eq_get hk
  exact ⟨hr, b.replicas.get ⟨1, hk⟩, hg, Replica2_eq_of b 1 _ _ hr hg⟩

/-- C9, witness: the first selection on the fresh two-replica topology. -/
theorem C9_first_selection_hits_index_one_witness :
    replica2 twoReplicaB2 = some (1, { twoReplicaB2 with count := 1 })
    ∧ ∃ p, twoReplicaB2.replicas.get? 1 = some p
        ∧ Replica2 twoReplicaB2 = some (p, { twoReplicaB2 with count := 1 }) :=
  C9_first_selection_hits_index_one twoReplicaB2 (by decide) (by decide)

/-- C10: Prepare stops at the first handle whose preparation fails,
returning that error with no statement and without attempting the remaining
handles (the statements already prepared are dropped, not closed — the loop
performs no close call); and it succeeds exactly when preparation succeeds
on every handle, equivalently on every distinct handle. -/
theorem C10_prepare_short_circuits (b : Balancer1) (f : Ptr → Except String Nat)
    (pre post : List Ptr) (d : Ptr) (e : String)
    (hsplit : GetAllDbs1 b = pre ++ d :: post)
    (hpre : ∀ x ∈ pre, isOkS (f x) = true)
    (hd : f d = Except.error e) :
    Prepare b f = (Except.error e, pre ++ [d])
    ∧ (∀ g : Ptr → Except String Nat,
        isOkE (Prepare b g).1 = true ↔ ∀ x ∈ GetAllDbs1 b, isOkS (g x) = true)
    ∧ (∀ g : Ptr → Except String Nat,
        (∀ x ∈ GetAllDbs1 b, isOkS (g x) = true)
          ↔ ∀ x ∈ (GetAllDbs1 b).dedup, isOkS (g x) = true) := by
  refine ⟨?_, ?_, ?_⟩
  · rw [Prepare, hsplit, prepareLoop_first_error f d e post hd pre [] [] hpre]
    simp
  · intro g
    exact prepareLoop_ok_iff g (GetAllDbs1 b) [] []
  · intro g
    constructor
    · intro h x hx; exact h x (List.mem_dedup.mp hx)
    · intro h x hx; exact h x (List.mem_dedup.mpr hx)

/-- C10, witness: preparing on the two-slave topology where the first slave
fails: the master was attempted, the failing slave was attempted, the last
slave was not, and the error comes back with no statement. -/
theorem C10_prepare_short_circuits_witness :
    Prepare twoSlaveB1 prepFailB = (Except.error "boom", [mA] ++ [rB])
    ∧ (∀ g : Ptr → Except String Nat,
        isOkE (Prepare twoSlaveB1 g).1 = true
          ↔ ∀ x ∈ GetAllDbs1 twoSlaveB1, isOkS (g x) = true)
    ∧ (∀ g : Ptr → Except String Nat,
        (∀ x ∈ GetAllDbs1 twoSlaveB1, isOkS (g x) = true)
          ↔ ∀ x ∈ (GetAllDbs1 twoSlaveB1).dedup, isOkS (g x) = true) :=
  C10_prepare_short_circuits twoSlaveB1 prepFailB [mA] [rC] rB "boom"
    (by decide) (by decide) (by rfl)


/-- Closed form of n sequential selections with more than one read target
and no uint64 wrap inside the window: the j-th call (0-based) selects index
(count + j + 1) mod k and returns the element there, and the counter ends at
count + n. -/
theorem replicaRun_closed_form (k : Nat) (hk : 1 < k) :
    ∀ (n : Nat) (b : Balancer2), b.replicas.length = k → b.count + n < U64 →
      replicaRun b n
        = some ((List.range n).map
            (fun j => ((b.count + j + 1) % k, b.replicas.getD ((b.count + j + 1) % k) none)),
          { b with count := b.count + n }) := by
  intro n
  induction n with
  | zero =>
    intro b hlen hwin
    simp [replicaRun]
  | succ n ih =>
    intro b hlen hwin
    have h1 : ¬ b.replicas.length = 1 := by omega
    have hz : ¬ b.replicas.length = 0 := by omega
    have hc : (b.count + 1) % U64 = b.count + 1 := Nat.mod_eq_of_lt (by omega)
    have h1k : ¬ k = 1 := by omega
    have hzk : ¬ k = 0 := by omega
    have hr : replica2 b = some ((b.count + 1) % k, { b with count := b.count + 1 }) := by
      simp [replica2, h1, hz, hc, hlen, h1k, hzk]
    have hig : (b.count + 1) % k < b.replicas.length := by
      rw [hlen]; exact Nat.mod_lt _ (by omega)
    have hg : b.replicas.get? ((b.count + 1) % k)
        = some (b.replicas.getD ((b.count + 1) % k) none) :=
      get?_some_getD none b.replicas _ hig
    have hrec := ih { b with count := b.count + 1 } hlen (by simp; omega)
    simp only [replicaRun, hr, hg, hrec]
    rw [List.range_succ_eq_map, List.map_cons, List.map_map]
    have harith : b.count + 1 + n = b.count + (n + 1) := by omega
    have hhead : (b.count + 0 + 1) % k = (b.count + 1) % k := by norm_num
    have htail : (List.range n).map
          (fun j => ((b.count + 1 + j + 1) % k, b.replicas.getD ((b.count + 1 + j + 1) % k) none))
        = (List.range n).map
            ((fun j => ((b.count + j + 1) % k, b.replicas.getD ((b.count + j + 1) % k) none))
              ∘ Nat.succ) := by
      refine List.map_congr_left ?_
      intro j hj
      have hx : b.count + 1 + j + 1 = b.count + (j + 1) + 1 := by omega
      simp [Function.comp, Nat.succ_eq_add_one, hx]
    simp only [htail, hhead, harith]

/-- The getD view of a mapped range below its length. -/
theorem getD_map_range (g : Nat → Nat) (m j d : Nat) (h : j < m) :
    ((List.range m).map g).getD j d = g j := by
  have h1 : ((List.range m).map g).get? j = some (g j) := by
    rw [List.get?_map, List.get?_range h]
    rfl
  have h2 : ((List.range m).map g).get? j = some (((List.range m).map g).getD j d) :=
    get?_some_getD d _ j (by simpa using h)
  rw [h1] at h2
  exact (Option.some_inj.mp h2).symm

/-- Taking the first k of a 2k-range map keeps the first k images. -/
theorem take_map_range (g : Nat → Nat) (k : Nat) :
    ((List.range (2 * k)).map g).take k = (List.range k).map g := by
  have hmin : k ⊓ (2 * k) = k := Nat.min_eq_left (by omega)
  rw [← List.map_take, List.take_range, hmin]

/-- Over one window of k calls the selection indices are pairwise distinct
and cover 0..k-1, so each is selected exactly once. -/
theorem rr_window_count (c k : Nat) (hk : 1 < k) :
    ∀ i, i < k → (((List.range (2 * k)).map (fun j => (c + j + 1) % k)).take k).count i = 1 := by
  intro i hi
  rw [take_map_range]
  have hnd : ((List.range k).map (fun j => (c + j + 1) % k)).Nodup := by
    refine List.Nodup.map_on ?_ (List.nodup_range k)
    intro x hx y hy hfe
    have hx2 : x < k := List.mem_range.mp hx
    have hy2 : y < k := List.mem_range.mp hy
    have hmeq : c + 1 + x ≡ c + 1 + y [MOD k] := by
      show (c + 1 + x) % k = (c + 1 + y) % k
      have e1 : c + 1 + x = c + x + 1 := by omega
      have e2 : c + 1 + y = c + y + 1 := by omega
      rw [e1, e2]
      exact hfe
    have h4 : x % k = y % k := Nat.ModEq.add_left_cancel' (c + 1) hmeq
    rwa [Nat.mod_eq_of_lt hx2, Nat.mod_eq_of_lt hy2] at h4
  have hlenW : ((List.range k).map (fun j => (c + j + 1) % k)).length = k := by simp
  have hsub : ((List.range k).map (fun j => (c + j + 1) % k)).toFinset ⊆ Finset.range k := by
    intro x hx
    rw [List.mem_toFinset] at hx
    obtain ⟨j, hj, rfl⟩ := List.mem_map.mp hx
    exact Finset.mem_range.mpr (Nat.mod_lt _ (by omega))
  have hcard : (Finset.range k).card
      ≤ ((List.range k).map (fun j => (c + j + 1) % k)).toFinset.card := by
    rw [List.toFinset_card_of_nodup hnd, hlenW, Finset.card_range]
  have heq := Finset.eq_of_subset_of_card_le hsub hcard
  have hmem : i ∈ (List.range k).map (fun j => (c + j + 1) % k) := by
    rw [← List.mem_toFinset, heq]
    exact Finset.mem_range.mpr hi
  exact List.count_eq_one_of_mem hnd hmem

/-- Consecutive selections move to the cyclically next index. -/
theorem rr_step (c k : Nat) (hk : 1 < k) :
    ∀ j, j + 1 < 2 * k →
      ((List.range (2 * k)).map (fun j => (c + j + 1) % k)).getD (j + 1) k
        = (((List.range (2 * k)).map (fun j => (c + j + 1) % k)).getD j k + 1) % k := by
  intro j hj
  rw [getD_map_range _ _ _ _ hj, getD_map_range _ _ _ _ (by omega : j < 2 * k)]
  have e : c + (j + 1) + 1 = c + j + 1 + 1 := by omega
  rw [e, Nat.add_mod (c + j + 1) 1 k, Nat.mod_eq_of_lt hk]

/-- The second window of k calls repeats the first exactly. -/
theorem rr_repeat (c k : Nat) (hk : 1 < k) :
    ((List.range (2 * k)).map (fun j => (c + j + 1) % k)).drop k
      = ((List.range (2 * k)).map (fun j => (c + j + 1) % k)).take k := by
  apply List.ext_get?
  intro j
  by_cases hj : j < k
  · rw [List.get?_drop, List.get?_take hj, List.get?_map, List.get?_map,
        List.get?_range (by omega : k + j < 2 * k), List.get?_range (by omega : j < 2 * k)]
    show some ((c + (k + j) + 1) % k) = some ((c + j + 1) % k)
    have e : c + (k + j) + 1 = k + (c + j + 1) := by omega
    rw [e, Nat.add_mod_left]
  · push_neg at hj
    have h1 : (((List.range (2 * k)).map (fun j => (c + j + 1) % k)).drop k).get? j = none :=
      List.get?_eq_none.mpr (by simp; omega)
    have h2 : (((List.range (2 * k)).map (fun j => (c + j + 1) % k)).take k).get? j = none :=
      List.get?_eq_none.mpr (by simp [List.length_take]; omega)
    rw [h1, h2]

/-- C5: from any counter state with no uint64 wrap in the window, a run of
2k sequential selections over k > 1 read targets selects, per call j, index
(count + j + 1) mod k; over the first k calls every position 0..k-1 is
selected exactly once, consecutive calls move to the cyclically next
position in insertion order, and calls k..2k-1 repeat the first cycle
exactly.  Each call returns the element stored at its selected index. -/
theorem C5_round_robin_cycles (b : Balancer2) (k : Nat)
    (hlen : b.replicas.length = k) (hk : 1 < k) (hwin : b.count + 2 * k < U64) :
    ∃ L c, replicaRun b (2 * k) = some (L, c)
      ∧ L.map Prod.fst = (List.range (2 * k)).map (fun j => (b.count + j + 1) % k)
      ∧ (∀ q ∈ L, q.2 = b.replicas.getD q.1 none)
      ∧ (∀ i, i < k → ((L.map Prod.fst).take k).count i = 1)
      ∧ (∀ j, j + 1 < 2 * k →
          (L.map Prod.fst).getD (j + 1) k = ((L.map Prod.fst).getD j k + 1) % k)
      ∧ (L.map Prod.fst).drop k = (L.map Prod.fst).take k := by
  have hcf := replicaRun_closed_form k hk (2 * k) b hlen hwin
  refine ⟨_, _, hcf, ?_, ?_, ?_, ?_, ?_⟩
  · rw [List.map_map]
    rfl
  · intro q hq
    obtain ⟨j, hj, rfl⟩ := List.mem_map.mp hq
    rfl
  · intro i hi
    have hmap : (((List.range (2 * k)).map
          (fun j => ((b.count + j + 1) % k, b.replicas.getD ((b.count + j + 1) % k) none))).map
            Prod.fst)
        = (List.range (2 * k)).map (fun j => (b.count + j + 1) % k) := by
      rw [List.map_map]; rfl
    rw [hmap]
    exact rr_window_count b.count k hk i hi
  · intro j hj
    have hmap : (((List.range (2 * k)).map
          (fun j => ((b.count + j + 1) % k, b.replicas.getD ((b.count + j + 1) % k) none))).map
            Prod.fst)
        = (List.range (2 * k)).map (fun j => (b.count + j + 1) % k) := by
      rw [List.map_map]; rfl
    rw [hmap]
    exact rr_step b.count k hk j hj
  · have hmap : (((List.range (2 * k)).map
          (fun j => ((b.count + j + 1) % k, b.replicas.getD ((b.count + j + 1) % k) none))).map
            Prod.fst)
        = (List.range (2 * k)).map (fun j => (b.count + j + 1) % k) := by
      rw [List.map_map]; rfl
    rw [hmap]
    exact rr_repeat b.count k hk

/-- C5, witness: the 2k-call run on the fresh three-replica topology. -/
theorem C5_round_robin_cycles_witness :
    ∃ L c, replicaRun threeReplicaB2 (2 * 3) = some (L, c)
      ∧ L.map Prod.fst = (List.range (2 * 3)).map (fun j => (threeReplicaB2.count + j + 1) % 3)
      ∧ (∀ q ∈ L, q.2 = threeReplicaB2.replicas.getD q.1 none)
      ∧ (∀ i, i < 3 → ((L.map Prod.fst).take 3).count i = 1)
      ∧ (∀ j, j + 1 < 2 * 3 →
          (L.map Prod.fst).getD (j + 1) 3 = ((L.map Prod.fst).getD j 3 + 1) % 3)
      ∧ (L.map Prod.fst).drop 3 = (L.map Prod.fst).take 3 :=
  C5_round_robin_cycles threeReplicaB2 3 (by decide) (by decide) (by decide)
end Gorb
